import Mathlib

/-!
# Verification of the truncated-values imputation notebook

Shallow embedding of `src/incubator/truncated-values.ipynb`.
Real-valued numpy arrays are modelled as `List ℚ` (exact arithmetic in
place of floats), the feature matrix as `List (List ℚ)`, and the random
draws of `scipy.stats.truncnorm.rvs` as an explicit list of values
constrained only to the sampler's support interval.
-/

set_option autoImplicit false

namespace TruncatedValues

/-! ## numpy primitives used by the notebook -/

/-- Model of `np.clip(v, a_min=None, a_max=hi)`: each entry is replaced by
`min(entry, hi)`. -/
def npClip (v : List ℚ) (hi : ℚ) : List ℚ := v.map (fun x => min x hi)

/-- Model of `np.mean(l)`: numpy's `add.reduce` is a left fold over the array,
then division by the length.  Division by zero (empty array) follows
Lean's `ℚ` convention `x / 0 = 0`. -/
def npMean (l : List ℚ) : ℚ := (l.foldl (· + ·) 0) / l.length

/-- Model of `np.var(l)`: the mean of the squared deviations from the mean
(`mean(abs(x - x.mean())**2)`; over the rationals `abs` squared is the
plain square, written as a product). -/
def npVar (l : List ℚ) : ℚ := npMean (l.map (fun x => (x - npMean l) * (x - npMean l)))

/-- Model of `np.where(c == t)` for a 1-d array: the list of indices whose entry
equals `t`, in increasing order. -/
def npWhereEq (t : ℚ) (c : List ℚ) : List Nat :=
  (List.range c.length).filter (fun i => decide (c.getD i 0 = t))

/-- Model of `np.put(a, idxs, vals)`: write `vals[j]` into position `idxs[j]` of a
copy of `a` (the notebook always passes `idxs` and `vals` of equal
length, so the pairing by `zip` is exact). -/
def npPut (a : List ℚ) (idxs : List Nat) (vals : List ℚ) : List ℚ :=
  (List.zip idxs vals).foldl (fun acc iv => acc.set iv.1 iv.2) a

/-! ## The notebook's pipeline steps -/

/-- Cell 7: `data_trunc = np.concatenate([np.clip(y, a_min=None,
a_max=truncation_point)])` — `np.concatenate` of a single array is that
array, so censoring is the clip alone. -/
def data_trunc (t : ℚ) (y : List ℚ) : List ℚ := npClip y t

/-- Cell 16: `len(data_trunc[data_trunc == truncation_point])`, the
`size` argument passed to `truncnorm.rvs`: the number of entries equal
to the truncation point. -/
def imputedSize (t : ℚ) (c : List ℚ) : Nat :=
  (c.filter (fun x => decide (x = t))).length

/-- Support interval of `scipy.stats.truncnorm.rvs(a, b, loc, scale)`.
Per scipy's documentation the shape parameters `a` and `b` are bounds on
the *standard* normal, so after shifting/scaling by `loc`/`scale` every
draw lies in `[loc + a*scale, loc + b*scale]`. -/
def truncnormSupport (a b loc scale : ℚ) : Set ℚ :=
  Set.Icc (loc + a * scale) (loc + b * scale)

/-- Cell 16: the set of values `imputed_values = truncnorm.rvs(
a=truncation_point, b=truncation_point * 20, loc=impute_mu,
scale=impute_sig, size=...)` can produce: the notebook passes the data-unit
truncation point directly as the standardized shape parameter `a` (and
`20 * truncation_point` as `b`). -/
def imputedDrawInterval (t loc scale : ℚ) : Set ℚ :=
  truncnormSupport t (t * 20) loc scale

/-- Cell 18:
`(idxs,) = np.where(data_trunc == truncation_point)` ;
`data_imp = np.copy(data_trunc)` ;
`np.put(data_imp, idxs, imputed_values)`.
The `np.copy` makes the write non-destructive, which the pure model
reflects by returning a new list and leaving `c` (and the original `y`)
untouched. `vals` is the list of drawn `imputed_values`. -/
def data_imp (t : ℚ) (c : List ℚ) (vals : List ℚ) : List ℚ :=
  npPut c (npWhereEq t c) vals

/-! ## Posterior point estimates and the evaluator -/

/-- Posterior trace of the selected model (cell 10 / cell 15): the lists
of sampled values of `Normal_mu` and `Normal_sig` in `trace1`. -/
structure Trace where
  mu : List ℚ
  sig : List ℚ

/-- Cell 15: `impute_mu = trace1["Normal_mu"].mean()`. -/
def impute_mu (tr : Trace) : ℚ := npMean tr.mu

/-- Cell 15: `impute_sig = trace1["Normal_sig"].mean()`. -/
def impute_sig (tr : Trace) : ℚ := npMean tr.sig

/-- Arithmetic mean as the spec words it (for comparison with the
code-side `npMean`): the sum of the samples over their count. -/
def specMean (l : List ℚ) : ℚ := l.sum / l.length

/-- Cell 22:
`def variance_explained(est, X, y): preds = est.predict(X);
return 1 - np.var(preds.ravel() - y.ravel()) / np.var(y.ravel())`.
The estimator is modelled as the function `est` from the feature matrix
to its prediction vector; `ravel` on 1-d arrays is the identity, and the
elementwise subtraction is `zipWith` (the lengths agree in every call the
notebook makes). -/
def variance_explained (est : List (List ℚ) → List ℚ) (X : List (List ℚ))
    (y : List ℚ) : ℚ :=
  1 - npVar (List.zipWith (· - ·) (est X) y) / npVar y

/-- Variance as the spec words it: mean of squared deviations from the
arithmetic mean (for comparison with the code-side `npVar`). -/
def specVar (l : List ℚ) : ℚ :=
  (l.map (fun x => (x - specMean l) * (x - specMean l))).sum / l.length

/-- Variance-explained score as the spec words it:
`1 − Var(prediction − truth) / Var(truth)`. -/
def specVarianceExplained (pred truth : List ℚ) : ℚ :=
  1 - specVar (List.zipWith (· - ·) pred truth) / specVar truth

/-- Division with its real-number partiality explicit: `none` when the
denominator is zero.  Used to express that `variance_explained` divides
by `np.var(y)` with no zero guard — numpy produces a non-finite result
(`inf`/`nan`, after a runtime warning) on a constant target. -/
def checkedDiv (x d : ℚ) : Option ℚ := if d = 0 then none else some (x / d)

/-- Scoring function of cell 22 with the division-by-zero case made
explicit (`none` models the undefined/non-finite float score). -/
def variance_explainedChecked (est : List (List ℚ) → List ℚ)
    (X : List (List ℚ)) (y : List ℚ) : Option ℚ :=
  (checkedDiv (npVar (List.zipWith (· - ·) (est X) y)) (npVar y)).map (fun r => 1 - r)

/-- Constant estimator used by concrete witnesses: predicts the fixed
vector `v` for any feature matrix. -/
def constEst (v : List ℚ) : List (List ℚ) → List ℚ := fun _ => v

/-- Modelled from the spec: `sklearn.datasets.make_regression` is the
external dataset generator whose implementation is not part of this
repository (cell 3 only calls it).  Per spec §4.1 it produces an
`n_samples × n_features` feature matrix and a length-`n_samples` target
(`n_targets = 1` collapses the target to a vector), and it fails fast
with a descriptive error when the informative-feature count exceeds the
total feature count.  The numeric content of the matrix is random and
irrelevant to the claim, so the model returns zero-filled arrays of the
contracted shape. -/
def make_regression (n_samples n_features n_informative n_targets : Nat) :
    Except String (List (List ℚ) × List ℚ) :=
  if n_features < n_informative then
    Except.error "n_informative must be no larger than n_features"
  else
    Except.ok (List.replicate n_samples (List.replicate n_features 0),
      List.replicate n_samples 0)

/-- An `Except` result that is an error carrying a nonempty message. -/
def isDescriptiveError {α : Type} (e : Except String α) : Prop :=
  match e with
  | Except.error msg => msg ≠ ""
  | Except.ok _ => False

/-- An `Except` result that succeeded with an `n_samples × n_features`
feature matrix and a length-`n_samples` target vector. -/
def hasShape (n_samples n_features : Nat)
    (e : Except String (List (List ℚ) × List ℚ)) : Prop :=
  match e with
  | Except.error _ => False
  | Except.ok (X, y) =>
      X.length = n_samples ∧ (∀ row ∈ X, row.length = n_features)
        ∧ y.length = n_samples

/-! ## Helper lemmas -/

theorem foldl_add_eq_sum (l : List ℚ) (a : ℚ) : l.foldl (· + ·) a = a + l.sum := by
  induction l generalizing a with
  | nil => simp
  | cons x xs ih => simp [List.foldl_cons, ih, List.sum_cons]; ring

theorem npMean_eq (l : List ℚ) : npMean l = l.sum / l.length := by
  simp [npMean, foldl_add_eq_sum]

theorem npClip_length (v : List ℚ) (hi : ℚ) : (npClip v hi).length = v.length := by
  simp [npClip]

theorem npClip_getD (v : List ℚ) (hi : ℚ) (i : Nat) (h : i < v.length) :
    (npClip v hi).getD i 0 = min (v.getD i 0) hi := by
  have h' : i < (npClip v hi).length := by rwa [npClip_length]
  rw [List.getD_eq_getElem _ _ h', List.getD_eq_getElem _ _ h]
  simp [npClip]

/-! ## C1: the censoring step -/

/-- C1: For every target vector and every entry in it, censoring
replaces the entry by `min(entry, boundary)`: afterwards every entry is
`≤` the boundary, entries at or below the boundary are unchanged, and
the step is a pure function of its inputs (deterministic by
construction, as `data_trunc` takes no random input). -/
theorem c1_censoring_clips (t : ℚ) (y : List ℚ) (i : Nat) (h : i < y.length) :
    (data_trunc t y).length = y.length
    ∧ (data_trunc t y).getD i 0 = min (y.getD i 0) t
    ∧ (data_trunc t y).getD i 0 ≤ t
    ∧ (y.getD i 0 ≤ t → (data_trunc t y).getD i 0 = y.getD i 0) := by
  refine ⟨npClip_length y t, npClip_getD y t i h, ?_, ?_⟩
  · show (npClip y t).getD i 0 ≤ t
    rw [npClip_getD y t i h]; exact min_le_right _ _
  · intro hle
    show (npClip y t).getD i 0 = y.getD i 0
    rw [npClip_getD y t i h]; exact min_eq_left hle

/-- Witness for C1 at `boundary = 2`, `y = [3, 1]`, entry `i = 1`. -/
theorem c1_censoring_clips_witness :
    (data_trunc 2 [3, 1]).length = ([3, 1] : List ℚ).length
    ∧ (data_trunc 2 [3, 1]).getD 1 0 = min (([3, 1] : List ℚ).getD 1 0) 2
    ∧ (data_trunc 2 [3, 1]).getD 1 0 ≤ 2
    ∧ (data_trunc 2 [3, 1]).getD 1 0 = ([3, 1] : List ℚ).getD 1 0 :=
  ⟨(c1_censoring_clips 2 [3, 1] 1 (by decide)).1,
   (c1_censoring_clips 2 [3, 1] 1 (by decide)).2.1,
   (c1_censoring_clips 2 [3, 1] 1 (by decide)).2.2.1,
   (c1_censoring_clips 2 [3, 1] 1 (by decide)).2.2.2 (by decide)⟩

/-! ## Lemmas about `npPut` and `npWhereEq` -/

theorem getD_set_ne (l : List ℚ) (i j : Nat) (a : ℚ) (h : i ≠ j) :
    (l.set i a).getD j 0 = l.getD j 0 := by
  rcases Nat.lt_or_ge j l.length with hj | hj
  · rw [List.getD_eq_getElem _ _ (by simpa using hj), List.getD_eq_getElem _ _ hj]
    exact List.getElem_set_of_ne h a (by simpa using hj)
  · rw [List.getD_eq_default _ _ (by simpa using hj), List.getD_eq_default _ _ hj]

theorem getD_set_self (l : List ℚ) (i : Nat) (v : ℚ) (h : i < l.length) :
    (l.set i v).getD i 0 = v := by
  rw [List.getD_eq_getElem _ _ (by simpa using h)]
  exact List.getElem_set_self (by simpa using h)

theorem npPut_nil_vals (a : List ℚ) (idxs : List Nat) : npPut a idxs [] = a := by
  simp [npPut, List.zip_nil_right]

theorem npPut_cons (a : List ℚ) (i : Nat) (idxs : List Nat) (v : ℚ) (vs : List ℚ) :
    npPut a (i :: idxs) (v :: vs) = npPut (a.set i v) idxs vs := by
  simp [npPut, List.zip_cons_cons]

theorem npPut_length (a : List ℚ) (idxs : List Nat) (vals : List ℚ) :
    (npPut a idxs vals).length = a.length := by
  induction idxs generalizing a vals with
  | nil => simp [npPut]
  | cons i idxs ih =>
    cases vals with
    | nil => rw [npPut_nil_vals]
    | cons v vs => rw [npPut_cons, ih, List.length_set]

theorem npPut_getD_not_mem (a : List ℚ) (idxs : List Nat) (vals : List ℚ) (i : Nat)
    (h : i ∉ idxs) : (npPut a idxs vals).getD i 0 = a.getD i 0 := by
  induction idxs generalizing a vals with
  | nil => simp [npPut]
  | cons j idxs ih =>
    cases vals with
    | nil => rw [npPut_nil_vals]
    | cons v vs =>
      rw [npPut_cons, ih _ _ (fun hm => h (List.mem_cons_of_mem _ hm))]
      exact getD_set_ne a j i v (fun hji => h (hji ▸ List.mem_cons_self _ _))

theorem npPut_getD_nth (a : List ℚ) (idxs : List Nat) (vals : List ℚ) (j : Nat)
    (hnd : idxs.Nodup) (hj : j < idxs.length) (hv : j < vals.length)
    (hrange : ∀ i ∈ idxs, i < a.length) :
    (npPut a idxs vals).getD (idxs.getD j 0) 0 = vals.getD j 0 := by
  induction idxs generalizing a vals j with
  | nil => exact absurd hj (by simp)
  | cons i idxs ih =>
    cases vals with
    | nil => exact absurd hv (by simp)
    | cons v vs =>
      rw [npPut_cons]
      cases j with
      | zero =>
        rw [List.getD_cons_zero, List.getD_cons_zero]
        rw [npPut_getD_not_mem _ _ _ _ (List.Nodup.not_mem hnd)]
        exact getD_set_self a i v (hrange i (List.mem_cons_self _ _))
      | succ j' =>
        rw [List.getD_cons_succ, List.getD_cons_succ]
        exact ih (a.set i v) vs j' (List.Nodup.of_cons hnd) (by simpa using hj)
          (by simpa using hv)
          (fun k hk => by rw [List.length_set]; exact hrange k (List.mem_cons_of_mem _ hk))

theorem npWhereEq_mem (t : ℚ) (c : List ℚ) (i : Nat) :
    i ∈ npWhereEq t c ↔ i < c.length ∧ c.getD i 0 = t := by
  simp [npWhereEq, List.mem_filter, List.mem_range]

theorem npWhereEq_nodup (t : ℚ) (c : List ℚ) : (npWhereEq t c).Nodup :=
  (List.nodup_range c.length).filter _

theorem getD_mem (l : List ℚ) (j : Nat) (h : j < l.length) : l.getD j 0 ∈ l := by
  rw [List.getD_eq_getElem _ _ h]; exact List.getElem_mem h

theorem getD_mem_nat (l : List Nat) (j : Nat) (h : j < l.length) : l.getD j 0 ∈ l := by
  rw [List.getD_eq_getElem _ _ h]; exact List.getElem_mem h

/-- The index count of `np.where(c == t)` agrees with
`len(c[c == t])`, the value count used as the `size` argument. -/
theorem npWhereEq_length (t : ℚ) (c : List ℚ) :
    (npWhereEq t c).length = imputedSize t c := by
  unfold npWhereEq imputedSize
  induction c with
  | nil => simp
  | cons x xs ih =>
    have hfun : ((fun i => decide ((x :: xs).getD i 0 = t)) ∘ Nat.succ)
        = fun i => decide (xs.getD i 0 = t) := by
      funext i
      simp [Function.comp, List.getD_cons_succ]
    have lhs : (List.filter (fun i => decide ((x :: xs).getD i 0 = t))
          (List.range (x :: xs).length)).length
        = (if x = t then 1 else 0)
          + (List.filter (fun i => decide (xs.getD i 0 = t)) (List.range xs.length)).length := by
      rw [List.length_cons, List.range_succ_eq_map, List.filter_cons, List.filter_map, hfun]
      by_cases hx : x = t <;> simp [hx, Nat.add_comm]
    have rhs : (List.filter (fun z => decide (z = t)) (x :: xs)).length
        = (if x = t then 1 else 0)
          + (List.filter (fun z => decide (z = t)) xs).length := by
      rw [List.filter_cons]
      by_cases hx : x = t <;> simp [hx, Nat.add_comm]
    rw [lhs, rhs, ih]

/-! ## C3: entries below the boundary pass through imputation untouched -/

/-- C3: The imputation step writes into a copy of the censored
vector: every entry strictly below the boundary is bit-for-bit equal in
the imputed vector, and the length is preserved.  The source copies
with `np.copy` before `np.put`, which the pure model reflects: `data_imp`
returns a fresh list, so the censored vector `c` and the original target
`y` are left unchanged by construction. -/
theorem c3_below_boundary_unchanged (t : ℚ) (c vals : List ℚ) (i : Nat)
    (hbelow : c.getD i 0 < t) :
    (data_imp t c vals).getD i 0 = c.getD i 0
    ∧ (data_imp t c vals).length = c.length := by
  have hnot : i ∉ npWhereEq t c := by
    intro hmem
    exact absurd ((npWhereEq_mem t c i).1 hmem).2 (ne_of_lt hbelow)
  exact ⟨npPut_getD_not_mem c _ vals i hnot, npPut_length c _ vals⟩

/-- Witness for C3 at `boundary = 2`, censored vector `[2, 1]`, one drawn
value `[9]`, entry `i = 1` (which is `1 < 2`). -/
theorem c3_below_boundary_unchanged_witness :
    (data_imp 2 [2, 1] [9]).getD 1 0 = ([2, 1] : List ℚ).getD 1 0
    ∧ (data_imp 2 [2, 1] [9]).length = ([2, 1] : List ℚ).length :=
  c3_below_boundary_unchanged 2 [2, 1] [9] 1 (by decide)

/-! ## C5: no boundary entries means imputation is a no-op -/

/-- C5: If no entry of the censored vector equals the boundary, the
imputation step draws zero values (`size = 0`) and returns a vector
entrywise equal to its input. -/
theorem c5_noop_without_boundary_entries (t : ℚ) (c vals : List ℚ)
    (h : ∀ x ∈ c, x ≠ t) :
    imputedSize t c = 0 ∧ data_imp t c vals = c := by
  have hsize : imputedSize t c = 0 := by
    unfold imputedSize
    rw [List.filter_eq_nil_iff.2 (fun a ha => by simpa using h a ha)]
    rfl
  have hwhere : npWhereEq t c = [] := by
    unfold npWhereEq
    refine List.filter_eq_nil_iff.2 (fun i hi => ?_)
    simp only [decide_eq_true_eq]
    exact h _ (getD_mem c i (List.mem_range.1 hi))
  refine ⟨hsize, ?_⟩
  unfold data_imp
  rw [hwhere]
  simp [npPut]

/-- Witness for C5 at `boundary = 2`, censored vector `[1, 0]` (no entry
equals 2), drawn values `[5]`. -/
theorem c5_noop_without_boundary_entries_witness :
    imputedSize 2 [1, 0] = 0 ∧ data_imp 2 [1, 0] [5] = [1, 0] :=
  c5_noop_without_boundary_entries 2 [1, 0] [5] (by decide)

/-! ## C9: selection is by exact equality with the boundary -/

/-- C9: The imputer selects the entries to replace with
`np.where(data_trunc == truncation_point)`: an in-range position is
selected if and only if its entry equals the boundary exactly — a
genuine measurement at the boundary is selected too — and an entry
strictly below the boundary is never selected. -/
theorem c9_selection_by_exact_equality (t : ℚ) (c : List ℚ) (i : Nat)
    (h : i < c.length) :
    (i ∈ npWhereEq t c ↔ c.getD i 0 = t)
    ∧ (c.getD i 0 < t → i ∉ npWhereEq t c) := by
  constructor
  · rw [npWhereEq_mem]
    exact ⟨fun hp => hp.2, fun he => ⟨h, he⟩⟩
  · intro hlt hmem
    exact absurd ((npWhereEq_mem t c i).1 hmem).2 (ne_of_lt hlt)

/-- Witness for C9 at `boundary = 2`, vector `[2, 1]`: position 0 (a
boundary value) is selected, position 1 (strictly below) is not. -/
theorem c9_selection_by_exact_equality_witness :
    (0 ∈ npWhereEq 2 [2, 1] ↔ ([2, 1] : List ℚ).getD 0 0 = 2)
    ∧ 1 ∉ npWhereEq 2 [2, 1] :=
  ⟨(c9_selection_by_exact_equality 2 [2, 1] 0 (by decide)).1,
   (c9_selection_by_exact_equality 2 [2, 1] 1 (by decide)).2 (by decide)⟩

/-! ## C4: one fresh draw per boundary entry -/

theorem npClip_le (v : List ℚ) (t : ℚ) : ∀ x ∈ npClip v t, x ≤ t := by
  intro x hx
  rcases List.mem_map.1 hx with ⟨z, _, hz⟩
  rw [← hz]
  exact min_le_right z t

/-- C4: the `size` argument of the `truncnorm.rvs` call (the number of
freshly drawn values) equals the number of entries of the censored
vector at or above the boundary — after clipping these are exactly the
boundary-valued entries — and the `j`-th selected entry receives exactly
the `j`-th drawn value. -/
theorem c4_one_draw_per_boundary_entry (t : ℚ) (y vals : List ℚ) (j : Nat)
    (hj : j < (npWhereEq t (data_trunc t y)).length) (hv : j < vals.length) :
    imputedSize t (data_trunc t y)
      = ((data_trunc t y).filter (fun x => decide (t ≤ x))).length
    ∧ (npWhereEq t (data_trunc t y)).length = imputedSize t (data_trunc t y)
    ∧ (data_imp t (data_trunc t y) vals).getD
        ((npWhereEq t (data_trunc t y)).getD j 0) 0 = vals.getD j 0 := by
  refine ⟨?_, npWhereEq_length t _, ?_⟩
  · unfold imputedSize
    congr 1
    refine List.filter_congr (fun x hx => ?_)
    refine decide_eq_decide.2 ⟨fun he => he ▸ le_refl t, fun hge => ?_⟩
    exact le_antisymm (npClip_le y t x hx) hge
  · refine npPut_getD_nth _ _ _ _ (npWhereEq_nodup t _) hj hv (fun i hi => ?_)
    exact ((npWhereEq_mem t _ i).1 hi).1

/-- Witness for C4 at `boundary = 2`, `y = [3, 1, 5]` (censored to
`[2, 1, 2]`), drawn values `[7, 9]`, selected entry `j = 1`. -/
theorem c4_one_draw_per_boundary_entry_witness :
    imputedSize 2 (data_trunc 2 [3, 1, 5])
      = ((data_trunc 2 [3, 1, 5]).filter (fun x => decide ((2 : ℚ) ≤ x))).length
    ∧ (npWhereEq 2 (data_trunc 2 [3, 1, 5])).length = imputedSize 2 (data_trunc 2 [3, 1, 5])
    ∧ (data_imp 2 (data_trunc 2 [3, 1, 5]) [7, 9]).getD
        ((npWhereEq 2 (data_trunc 2 [3, 1, 5])).getD 1 0) 0 = ([7, 9] : List ℚ).getD 1 0 :=
  c4_one_draw_per_boundary_entry 2 [3, 1, 5] [7, 9] 1 (by decide) (by decide)

/-! ## C2: the support interval of the imputation draws -/

/-- C2 is refuted by the `truncnorm.rvs` call of cell 16: scipy
interprets the shape parameters `a`, `b` in standard-deviation units of
the standard normal, while the notebook passes the data-unit boundary
and `20 * boundary` directly (its own comment intends data-unit
truncation).  At posterior location `-3` and scale `1` with boundary
`2`, the call's support interval is `[-1, 37]`: it contains `-1`, which
is below the boundary, and it is not contained in
`[boundary, 20 * boundary] = [2, 40]`. -/
theorem c2_draw_interval_escapes_boundary :
    (-1 : ℚ) ∈ imputedDrawInterval 2 (-3) 1
    ∧ ¬ ((2 : ℚ) ≤ -1)
    ∧ ¬ (imputedDrawInterval 2 (-3) 1 ⊆ Set.Icc (2 : ℚ) (2 * 20)) := by
  have hmem : (-1 : ℚ) ∈ imputedDrawInterval 2 (-3) 1 := by
    simp only [imputedDrawInterval, truncnormSupport, Set.mem_Icc]
    norm_num
  refine ⟨hmem, by norm_num, fun hsub => ?_⟩
  have hin := hsub hmem
  rw [Set.mem_Icc] at hin
  exact absurd hin.1 (by norm_num)

/-! ## C6: the variance-explained score -/

theorem npVar_eq_specVar (l : List ℚ) : npVar l = specVar l := by
  unfold npVar specVar
  rw [npMean_eq, List.length_map, npMean_eq]
  rfl

/-- C6: for every estimator, feature matrix and target vector with
nonzero target variance, the scoring function of cell 22 returns exactly
the spec's formula `1 − Var(prediction − truth) / Var(truth)`. -/
theorem c6_variance_explained_formula (est : List (List ℚ) → List ℚ)
    (X : List (List ℚ)) (y : List ℚ) (h : specVar y ≠ 0) :
    variance_explained est X y = specVarianceExplained (est X) y := by
  unfold variance_explained specVarianceExplained
  rw [npVar_eq_specVar, npVar_eq_specVar]

/-- Witness for C6 with the constant estimator `[1, 2]`, features
`[[0], [0]]`, target `[0, 2]` (variance 1). -/
theorem c6_variance_explained_formula_witness :
    specVar [0, 2] ≠ 0
    ∧ variance_explained (constEst [1, 2]) [[0], [0]] [0, 2]
        = specVarianceExplained (constEst [1, 2] [[0], [0]]) [0, 2] :=
  ⟨by norm_num [specVar, specMean],
   c6_variance_explained_formula (constEst [1, 2]) [[0], [0]] [0, 2]
     (by norm_num [specVar, specMean])⟩

/-! ## C7: the posterior point estimates are the trace means -/

/-- C7: the imputation location and scale of cell 15 are the arithmetic
means of the posterior samples of `Normal_mu` and `Normal_sig` in the
selected model's trace. -/
theorem c7_posterior_point_estimates (tr : Trace) :
    impute_mu tr = specMean tr.mu ∧ impute_sig tr = specMean tr.sig := by
  unfold impute_mu impute_sig specMean
  rw [npMean_eq, npMean_eq]
  exact ⟨rfl, rfl⟩

/-! ## C10: the score divides by the target variance without a guard -/

theorem npVar_replicate (n : Nat) (c : ℚ) : npVar (List.replicate n c) = 0 := by
  cases n with
  | zero => simp [npVar, npMean]
  | succ m =>
    have hmean : npMean (List.replicate (m + 1) c) = c := by
      rw [npMean_eq, List.sum_replicate, List.length_replicate, nsmul_eq_mul]
      exact mul_div_cancel_left₀ c (by positivity)
    unfold npVar
    rw [hmean, List.map_replicate]
    simp [npMean_eq, List.sum_replicate]

/-- C10: the scoring function divides by `np.var(y)` with no zero guard:
for every constant target vector the variance is zero and the score is
undefined (modelled as `none`), while for every target with nonzero
variance the score is well-defined and agrees with `variance_explained`. -/
theorem c10_division_by_zero_variance (est : List (List ℚ) → List ℚ)
    (X : List (List ℚ)) (y : List ℚ) :
    ((∃ c, y = List.replicate y.length c) →
      npVar y = 0 ∧ variance_explainedChecked est X y = none)
    ∧ (npVar y ≠ 0 →
      variance_explainedChecked est X y = some (variance_explained est X y)) := by
  constructor
  · rintro ⟨c, hc⟩
    have h0 : npVar y = 0 := by rw [hc]; exact npVar_replicate _ _
    refine ⟨h0, ?_⟩
    simp [variance_explainedChecked, checkedDiv, h0]
  · intro h
    simp [variance_explainedChecked, checkedDiv, h, variance_explained]

/-- Witness for C10: the constant target `[5, 5]` yields an undefined
score, the non-constant target `[0, 2]` a defined one. -/
theorem c10_division_by_zero_variance_witness :
    (npVar [5, 5] = 0
      ∧ variance_explainedChecked (constEst [1, 1]) [[0], [0]] [5, 5] = none)
    ∧ variance_explainedChecked (constEst [1, 1]) [[0], [0]] [0, 2]
        = some (variance_explained (constEst [1, 1]) [[0], [0]] [0, 2]) :=
  ⟨(c10_division_by_zero_variance (constEst [1, 1]) [[0], [0]] [5, 5]).1 ⟨5, by decide⟩,
   (c10_division_by_zero_variance (constEst [1, 1]) [[0], [0]] [0, 2]).2
     (by norm_num [npVar, npMean])⟩

/-! ## C8: the data generator's parameter validation -/

/-- C8: the data generator fails immediately with a descriptive
(nonempty) error message when the informative-feature count exceeds the
total feature count, and succeeds for every valid combination, producing
an `n_samples × n_features` feature matrix and a length-`n_samples`
target.  (`make_regression` is modelled from the spec: it is an external
sklearn collaborator, only called from cell 3.) -/
theorem c8_generator_validation (ns nf ni nt : Nat) :
    (nf < ni → isDescriptiveError (make_regression ns nf ni nt))
    ∧ (ni ≤ nf → hasShape ns nf (make_regression ns nf ni nt)) := by
  constructor
  · intro h
    simp [make_regression, h, isDescriptiveError]
  · intro h
    have hn : ¬ nf < ni := not_lt.2 h
    simp only [make_regression, hn, if_false, hasShape]
    refine ⟨List.length_replicate _ _, fun row hrow => ?_, List.length_replicate _ _⟩
    rw [(List.eq_of_mem_replicate hrow)]
    exact List.length_replicate _ _

/-- Witness for C8: 4 informative of 2 total features errors, 2 of 4
succeeds with a 3 × 4 matrix. -/
theorem c8_generator_validation_witness :
    isDescriptiveError (make_regression 3 2 4 1)
    ∧ hasShape 3 4 (make_regression 3 4 2 1) :=
  ⟨(c8_generator_validation 3 2 4 1).1 (by decide),
   (c8_generator_validation 3 4 2 1).2 (by decide)⟩

end TruncatedValues
